import Mathlib

/-!
# dumbingress (main.go): routing table, synchroniser loops, SNI peeking proxy

A shallow embedding of `main.go`.  The two package-level maps become explicit
state, the cluster client and the sockets become inputs (the replies they
give), a run-time panic becomes `none` (the control point `Pc.Panic` in the
loops), and a Go `error` becomes `Option Error` (`none` is `nil`).
-/

namespace Dumbingress

/-! ## Go values -/

/-- Go `map[string]string`, through the operations `main.go` performs on it:
index, assign, delete, and reset to the empty map (it is never ranged over). -/
def StrMap : Type := String → Option String

namespace StrMap

/-- The literal `map[string]string{}`. -/
def empty : StrMap := fun _ => none

/-- The statement `m[k] = v`. -/
def assign (m : StrMap) (k v : String) : StrMap := fun x => if x = k then some v else m x

/-- The call `delete(m, k)`. -/
def delete (m : StrMap) (k : String) : StrMap := fun x => if x = k then none else m x

/-- The expression `m[k]`: the stored value, or the zero value `""` when `k` is absent. -/
def index (m : StrMap) (k : String) : String := (m k).getD ""

end StrMap

/-- A non-nil Go `error`; `reason` is what `kerrors.ReasonForError` reports. -/
structure Error where
  reason : String
  message : String
deriving DecidableEq, Repr

/-- The predicate `kerrors.IsConflict(err)`; false on the nil error. -/
def IsConflict : Option Error → Bool
  | some e => e.reason == "Conflict"
  | none => false

/-- Decimal rendering shared by `strconv.Itoa` and the `%d` verb of `fmt.Sprintf`. -/
def Itoa : Int → String
  | Int.ofNat n => Nat.repr n
  | Int.negSucc n => "-" ++ Nat.repr (n + 1)

/-! ## Cluster resources (the fields `main.go` reads) -/

/-- The type `intstr.IntOrString`: an int32 or a string. -/
inductive IntOrString where
  | ofInt (IntVal : Int)
  | ofString (StrVal : String)
deriving DecidableEq, Repr

/-- The method `IntOrString.String()`. -/
def IntOrString.str : IntOrString → String
  | .ofString s => s
  | .ofInt v => Itoa v

/-- The type `v1beta1.IngressBackend`. -/
structure IngressBackend where
  ServiceName : String
  ServicePort : IntOrString
deriving DecidableEq, Repr

/-- The type `v1beta1.HTTPIngressPath`. -/
structure HTTPIngressPath where
  Path : String
  Backend : IngressBackend
deriving DecidableEq, Repr

/-- The type `v1beta1.HTTPIngressRuleValue`. -/
structure HTTPIngressRuleValue where
  Paths : List HTTPIngressPath
deriving DecidableEq, Repr

/-- The type `v1beta1.IngressRule`; `HTTP` is a pointer, `none` when nil. -/
structure IngressRule where
  Host : String
  HTTP : Option HTTPIngressRuleValue
deriving DecidableEq, Repr

/-- The type `v1.LoadBalancerIngress`. -/
structure LoadBalancerIngress where
  IP : String
  Hostname : String
deriving DecidableEq, Repr

/-- The type `v1beta1.Ingress`: `Rules` is `Spec.Rules`, `Status` is
`Status.LoadBalancer.Ingress`. -/
structure Ingress where
  Namespace : String
  Name : String
  Rules : List IngressRule
  Status : List LoadBalancerIngress
deriving DecidableEq, Repr

/-- The type `v1.ServicePort`; `Port` is an int32. -/
structure ServicePort where
  Port : Int
deriving DecidableEq, Repr

/-- The type `v1.Service`: `ClusterIP` is `Spec.ClusterIP`, `Ports` is `Spec.Ports`. -/
structure Service where
  Namespace : String
  Name : String
  ClusterIP : String
  Ports : List ServicePort
deriving DecidableEq, Repr

/-! ## The routing table -/

/-- The package variables `ingresses` and `services`. -/
structure Table where
  ingresses : StrMap
  services : StrMap

/-- The table at process start: both maps empty. -/
def Table.init : Table := { ingresses := StrMap.empty, services := StrMap.empty }

/-- Line 34: `fmt.Sprintf("%s/%s/%s", namespace, serviceName, servicePort.String())`. -/
def ingressKey (ns svc : String) (port : IntOrString) : String :=
  ns ++ "/" ++ svc ++ "/" ++ port.str

/-- Lines 113, 136, 144: `fmt.Sprintf("%s/%s/%d", namespace, name, port)`. -/
def serviceKey (ns name : String) (port : Int) : String :=
  ns ++ "/" ++ name ++ "/" ++ Itoa port

/-- Lines 113, 136: `fmt.Sprintf("%s:%d", clusterIP, port)`. -/
def serviceAddr (ip : String) (port : Int) : String :=
  ip ++ ":" ++ Itoa port

/-- Line 224 of `handle`: `services[ingresses[serverName]]`. -/
def resolve (t : Table) (serverName : String) : String :=
  t.services.index (t.ingresses.index serverName)

/-! ## updateIngress -/

/-- Lines 33-35: the loop over `i.Spec.Rules`.  `none` is the run-time panic of
`r.HTTP.Paths[0]` (nil `HTTP`, or an empty `Paths`). -/
def updateRules (ns : String) : List IngressRule → StrMap → Option StrMap
  | [], m => some m
  | r :: rs, m =>
    match r.HTTP with
    | none => none
    | some http =>
      match http.Paths with
      | [] => none
      | p :: _ =>
        updateRules ns rs (m.assign r.Host (ingressKey ns p.Backend.ServiceName p.Backend.ServicePort))

/-- What one call of `updateIngress` leaves behind: the rule map, the objects it
passed to `UpdateStatus` (in call order), and the error it returns. -/
structure UpdateIngressResult where
  ingresses : StrMap
  UpdateStatus : List Ingress
  err : Option Error

/-- Line 38: `len(status) != 1 || status[0].IP != externalIP`. -/
def statusDiffers (externalIP : String) : List LoadBalancerIngress → Bool
  | [x] => x.IP != externalIP
  | _ => true

/-- The function `updateIngress`.  `reply` is the error the cluster returns to the
`UpdateStatus` call, should one be made; `none` as a result is a panic. -/
def updateIngress (externalIP : String) (ingresses : StrMap) (i : Ingress)
    (reply : Option Error) : Option UpdateIngressResult :=
  match updateRules i.Namespace i.Rules ingresses with
  | none => none
  | some m =>
    if statusDiffers externalIP i.Status then
      some { ingresses := m
             UpdateStatus := [{ i with Status := [{ IP := externalIP, Hostname := "" }] }]
             err := if IsConflict reply then none else reply }
    else
      some { ingresses := m, UpdateStatus := [], err := none }

/-! ## The synchroniser loops

Each loop is a machine driven by what the cluster answers: the reply to `List`,
the reply to `Watch`, and what is received on the watch channel.  The control
point says which of the three the loop is waiting for. -/

/-- Control points shared by `watchIngresses` and `watchServices`. -/
inductive Pc where
  /-- top of the outer `for`: the next cluster call is `List` -/
  | List
  /-- the snapshot is installed: the next cluster call is `Watch` -/
  | Watch
  /-- inside the `out:` loop, receiving from `w.ResultChan()` -/
  | Drain
  /-- the function has returned this error -/
  | Return (err : Error)
  /-- a run-time panic was raised -/
  | Panic
deriving DecidableEq, Repr

/-- One receive on the ingress watch channel.  An added or modified object
comes with the reply the cluster gives to its `UpdateStatus` call, should
`updateIngress` make one.  `Other` is an event type the `switch` has no case for. -/
inductive IngressEvent where
  | Added (i : Ingress) (reply : Option Error)
  | Modified (i : Ingress) (reply : Option Error)
  | Deleted (i : Ingress)
  | Error (object : String)
  | Other

/-- Lines 88-90: `delete(ingresses, r.Host)` for each rule. -/
def deleteRules (rules : List IngressRule) (m : StrMap) : StrMap :=
  rules.foldl (fun acc r => acc.delete r.Host) m

/-- Lines 59-64: `updateIngress` on each listed item, stopping at the first
error it returns.  The result is the rule map and that error (`none` if the loop
ran to its end); a panic is `none`. -/
def listLoop (externalIP : String) :
    List (Ingress × Option Error) → StrMap → Option (StrMap × Option Error)
  | [], m => some (m, none)
  | (i, reply) :: rest, m =>
    match updateIngress externalIP m i reply with
    | none => none
    | some r =>
      match r.err with
      | some err => some (r.ingresses, some err)
      | none => listLoop externalIP rest r.ingresses

/-- State of `watchIngresses`: control point and the `ingresses` map.  In the
`Panic` state the map is not meaningful. -/
structure IngressLoop where
  pc : Pc
  ingresses : StrMap

/-- What the cluster answers to `watchIngresses`. -/
inductive IngressInput where
  /-- reply to `List`: an error, or the items, each with the reply to its status update -/
  | List (reply : Except Error (List (Ingress × Option Error)))
  /-- reply to `Watch`: an error or an open stream -/
  | Watch (reply : Option Error)
  /-- one receive on the channel; `none` is the closed channel (`!ok`) -/
  | Recv (event : Option IngressEvent)

/-- Lines 79-96, the arms `watch.Added, watch.Modified`. -/
def ingressUpsert (externalIP : String) (s : IngressLoop) (i : Ingress)
    (reply : Option Error) : IngressLoop :=
  match updateIngress externalIP s.ingresses i reply with
  | none => { s with pc := Pc.Panic }
  | some r =>
    match r.err with
    | some err => { pc := Pc.Return err, ingresses := r.ingresses }
    | none => { pc := Pc.Drain, ingresses := r.ingresses }

/-- One step of `watchIngresses` (lines 49-100).  `none`: the loop is not
waiting for this input (in particular it has returned or panicked). -/
def watchIngressesStep (externalIP : String) (s : IngressLoop) (inp : IngressInput) :
    Option IngressLoop :=
  match s.pc, inp with
  | Pc.List, IngressInput.List (Except.error err) => some { s with pc := Pc.Return err }
  | Pc.List, IngressInput.List (Except.ok items) =>
    match listLoop externalIP items StrMap.empty with
    | none => some { s with pc := Pc.Panic }
    | some (m, some err) => some { pc := Pc.Return err, ingresses := m }
    | some (m, none) => some { pc := Pc.Watch, ingresses := m }
  | Pc.Watch, IngressInput.Watch (some err) => some { s with pc := Pc.Return err }
  | Pc.Watch, IngressInput.Watch none => some { s with pc := Pc.Drain }
  | Pc.Drain, IngressInput.Recv none => some { s with pc := Pc.List }
  | Pc.Drain, IngressInput.Recv (some (IngressEvent.Added i reply)) =>
    some (ingressUpsert externalIP s i reply)
  | Pc.Drain, IngressInput.Recv (some (IngressEvent.Modified i reply)) =>
    some (ingressUpsert externalIP s i reply)
  | Pc.Drain, IngressInput.Recv (some (IngressEvent.Deleted i)) =>
    some { s with ingresses := deleteRules i.Rules s.ingresses }
  | Pc.Drain, IngressInput.Recv (some (IngressEvent.Error _)) => some { s with pc := Pc.List }
  | Pc.Drain, IngressInput.Recv (some IngressEvent.Other) => some s
  | _, _ => none

/-- The function `watchIngresses` run on a sequence of cluster answers. -/
def watchIngresses (externalIP : String) (s : IngressLoop) : List IngressInput → Option IngressLoop
  | [] => some s
  | inp :: rest =>
    match watchIngressesStep externalIP s inp with
    | none => none
    | some s2 => watchIngresses externalIP s2 rest

/-- Lines 112-114 and 135-137: one assignment per declared port. -/
def assignPorts (s : Service) (m : StrMap) : StrMap :=
  s.Ports.foldl
    (fun acc p => acc.assign (serviceKey s.Namespace s.Name p.Port) (serviceAddr s.ClusterIP p.Port)) m

/-- Lines 143-145: one `delete` per declared port. -/
def deletePorts (s : Service) (m : StrMap) : StrMap :=
  s.Ports.foldl (fun acc p => acc.delete (serviceKey s.Namespace s.Name p.Port)) m

/-- Lines 110-115: the fresh map filled from the listed services. -/
def listServices (items : List Service) : StrMap :=
  items.foldl (fun acc s => assignPorts s acc) StrMap.empty

/-- One receive on the service watch channel. -/
inductive ServiceEvent where
  | Added (s : Service)
  | Modified (s : Service)
  | Deleted (s : Service)
  | Error (object : String)
  | Other

/-- State of `watchServices`: control point and the `services` map. -/
structure ServiceLoop where
  pc : Pc
  services : StrMap

/-- What the cluster answers to `watchServices`. -/
inductive ServiceInput where
  | List (reply : Except Error (List Service))
  | Watch (reply : Option Error)
  | Recv (event : Option ServiceEvent)

/-- One step of `watchServices` (lines 102-155).  `none`: the loop is not
waiting for this input (in particular it has returned). -/
def watchServicesStep (s : ServiceLoop) (inp : ServiceInput) : Option ServiceLoop :=
  match s.pc, inp with
  | Pc.List, ServiceInput.List (Except.error err) => some { s with pc := Pc.Return err }
  | Pc.List, ServiceInput.List (Except.ok items) =>
    some { pc := Pc.Watch, services := listServices items }
  | Pc.Watch, ServiceInput.Watch (some err) => some { s with pc := Pc.Return err }
  | Pc.Watch, ServiceInput.Watch none => some { s with pc := Pc.Drain }
  | Pc.Drain, ServiceInput.Recv none => some { s with pc := Pc.List }
  | Pc.Drain, ServiceInput.Recv (some (ServiceEvent.Added x)) =>
    some { s with services := assignPorts x s.services }
  | Pc.Drain, ServiceInput.Recv (some (ServiceEvent.Modified x)) =>
    some { s with services := assignPorts x s.services }
  | Pc.Drain, ServiceInput.Recv (some (ServiceEvent.Deleted x)) =>
    some { s with services := deletePorts x s.services }
  | Pc.Drain, ServiceInput.Recv (some (ServiceEvent.Error _)) => some { s with pc := Pc.List }
  | Pc.Drain, ServiceInput.Recv (some ServiceEvent.Other) => some s
  | _, _ => none

/-- The function `watchServices` run on a sequence of cluster answers. -/
def watchServices (s : ServiceLoop) : List ServiceInput → Option ServiceLoop
  | [] => some s
  | inp :: rest =>
    match watchServicesStep s inp with
    | none => none
    | some s2 => watchServices s2 rest

/-- Routing tables the two loops can produce from the empty maps.  A rule
snapshot cut short by an error is the snapshot of the items up to that one, so
`listLoop` covers it. -/
inductive Reachable (externalIP : String) : Table → Prop where
  | init : Reachable externalIP Table.init
  | ruleSnapshot (t : Table) (items : List (Ingress × Option Error)) (m : StrMap)
      (err : Option Error) :
      Reachable externalIP t → listLoop externalIP items StrMap.empty = some (m, err) →
      Reachable externalIP { t with ingresses := m }
  | ruleUpsert (t : Table) (i : Ingress) (reply : Option Error) (r : UpdateIngressResult) :
      Reachable externalIP t → updateIngress externalIP t.ingresses i reply = some r →
      Reachable externalIP { t with ingresses := r.ingresses }
  | ruleDelete (t : Table) (i : Ingress) :
      Reachable externalIP t →
      Reachable externalIP { t with ingresses := deleteRules i.Rules t.ingresses }
  | endpointSnapshot (t : Table) (items : List Service) :
      Reachable externalIP t → Reachable externalIP { t with services := listServices items }
  | endpointUpsert (t : Table) (s : Service) :
      Reachable externalIP t →
      Reachable externalIP { t with services := assignPorts s t.services }
  | endpointDelete (t : Table) (s : Service) :
      Reachable externalIP t →
      Reachable externalIP { t with services := deletePorts s t.services }

/-! ## The conn wrapper and handle -/

/-- A byte of a stream; bytes are only moved, never computed with. -/
abbrev Byte : Type := Fin 256

/-- The type `conn`: the replay buffer (`none` when `buf` is nil) and, for the
embedded `net.Conn`, the writes that have reached it. -/
structure conn where
  buf : Option (List Byte)
  written : List (List Byte)
deriving DecidableEq, Repr

/-- The method `conn.Read`.  `data` is `b[:n]` as filled by the embedded
connection and `err` the error it returned with it; the result is `(n, err)`. -/
def conn.Read (c : conn) (data : List Byte) (err : Option Error) : conn × Nat × Option Error :=
  match c.buf with
  | some buf => ({ c with buf := some (buf ++ data) }, data.length, err)
  | none => (c, data.length, err)

/-- The method `conn.Write`.  `under` is what the embedded connection would
return for this write, should it be forwarded. -/
def conn.Write (c : conn) (b : List Byte) (under : Nat × Option Error) : conn × Nat × Option Error :=
  match c.buf with
  | some _ => (c, b.length, none)
  | none => ({ c with written := c.written ++ [b] }, under.1, under.2)

/-- One call made on the wrapper, with what the embedded connection answers. -/
inductive ConnCall where
  | Read (data : List Byte) (err : Option Error)
  | Write (b : List Byte) (under : Nat × Option Error)
deriving DecidableEq, Repr

/-- A sequence of calls on the wrapper: the final wrapper and each call's result. -/
def conn.run (c : conn) : List ConnCall → conn × List (Nat × Option Error)
  | [] => (c, [])
  | ConnCall.Read data err :: rest =>
    let r := c.Read data err
    let out := conn.run r.1 rest
    (out.1, r.2 :: out.2)
  | ConnCall.Write b under :: rest =>
    let r := c.Write b under
    let out := conn.run r.1 rest
    (out.1, r.2 :: out.2)

/-- The bytes the embedded connection handed over, call after call. -/
def readBytes : List ConnCall → List Byte
  | [] => []
  | ConnCall.Read data _ :: rest => data ++ readBytes rest
  | ConnCall.Write _ _ :: rest => readBytes rest

/-- How `tc.Handshake()` ends: with `fakeError` (the callback ran and stored the
server name), or with anything else. -/
inductive Handshake where
  | fakeError (serverName : String)
  | other (err : Option Error)
deriving DecidableEq, Repr

/-- Everything outside `handle` that one session depends on. -/
structure Session where
  /-- the calls the TLS handshake makes on the wrapper -/
  calls : List ConnCall
  /-- how the handshake ends -/
  handshake : Handshake
  /-- the error of `net.Dial("tcp4", dest)`, `none` when it connects -/
  Dial : String → Option Error
  /-- the error of `c2.Write` -/
  c2Write : List Byte → Option Error
  /-- the error returned by the synchronous `io.Copy(c, c2)` -/
  copyBack : Option Error
  /-- the content of `errch` at the moment observed, once the synchronous copy
  has ended: `some r` when the goroutine's `io.Copy(c2, c)` has ended with `r`
  and sent it, `none` while that copy is still running -/
  errch : Option (Option Error)

/-- What `handle` has done. -/
structure Handled where
  /-- addresses passed to `net.Dial` -/
  dialed : List String
  /-- writes made on the outbound connection before the bridge -/
  c2Written : List (List Byte)
  /-- the value returned; `none` while `handle` is blocked in `<-errch` -/
  returned : Option (Option Error)
  /-- the deferred `cc.Close()` has run -/
  ccClosed : Bool
  /-- the deferred `c2.Close()` has run -/
  c2Closed : Bool
deriving DecidableEq, Repr

/-- Lines 239-250: the bridge.  The deferred closes run when `handle` returns. -/
def bridge (copyBack : Option Error) (errch : Option (Option Error)) : Option (Option Error) :=
  match copyBack with
  | some err => some (some err)
  | none => errch

/-- The function `handle` (lines 206-251). -/
def handle (t : Table) (env : Session) : Handled :=
  let cc := (conn.run { buf := some [], written := [] } env.calls).1
  match env.handshake with
  | Handshake.other err =>
    { dialed := [], c2Written := [], returned := some err, ccClosed := true, c2Closed := false }
  | Handshake.fakeError serverName =>
    let dest := t.services.index (t.ingresses.index serverName)
    match env.Dial dest with
    | some err =>
      { dialed := [dest], c2Written := [], returned := some (some err), ccClosed := true,
        c2Closed := false }
    | none =>
      let bytes := cc.buf.getD []
      match env.c2Write bytes with
      | some err =>
        { dialed := [dest], c2Written := [bytes], returned := some (some err), ccClosed := true,
          c2Closed := true }
      | none =>
        match bridge env.copyBack env.errch with
        | some ret =>
          { dialed := [dest], c2Written := [bytes], returned := some ret, ccClosed := true,
            c2Closed := true }
        | none =>
          { dialed := [dest], c2Written := [bytes], returned := none, ccClosed := false,
            c2Closed := false }

/-! ## Vocabulary of the statements -/

/-- The rule carries an HTTP section with at least one path. -/
def IngressRule.hasPath (r : IngressRule) : Bool :=
  match r.HTTP with
  | none => false
  | some http => !http.Paths.isEmpty

/-- The first path of the rule, when it has one. -/
def IngressRule.firstPath (r : IngressRule) : Option HTTPIngressPath :=
  match r.HTTP with
  | none => none
  | some http => http.Paths.head?

/-- The rule with every path after the first removed. -/
def IngressRule.firstOnly (r : IngressRule) : IngressRule :=
  { r with HTTP := r.HTTP.map (fun http => { Paths := http.Paths.take 1 }) }

/-- The published address list is exactly one entry whose IP is `externalIP`. -/
def statusIs (externalIP : String) (status : List LoadBalancerIngress) : Prop :=
  ∃ x, status = [x] ∧ x.IP = externalIP

/-- The value of a decimal digit character. -/
def digitVal (c : Char) : Nat := c.toNat - 48

/-- The number a list of decimal digits denotes. -/
def digitsVal (l : List Char) : Nat := l.foldl (fun a c => 10 * a + digitVal c) 0

/-- The string holds no `/`, as is the case of every Kubernetes namespace and
object name. -/
def noSlash (s : String) : Prop := '/' ∉ s.data

instance (s : String) : Decidable (noSlash s) := by
  unfold noSlash
  infer_instance

/-- The hostnames of all rules of the listed items, in order. -/
def boundHosts : List (Ingress × Option Error) → List String
  | [] => []
  | x :: rest => x.1.Rules.map (fun r => r.Host) ++ boundHosts rest

/-- The add/modify arm of `watchIngresses` as a step on the whole table. -/
def Table.ingressUpsert (externalIP : String) (t : Table) (i : Ingress) (reply : Option Error) :
    Option Table :=
  (updateIngress externalIP t.ingresses i reply).map (fun r => { t with ingresses := r.ingresses })

/-- The add/modify arm of `watchServices` as a step on the whole table. -/
def Table.serviceUpsert (t : Table) (s : Service) : Table :=
  { t with services := assignPorts s t.services }


/-- A rule for `a.example.com` whose first path leads to port 443 of service `web`. -/
def sampleRule : IngressRule :=
  { Host := "a.example.com"
    HTTP := some { Paths := [{ Path := "/"
                               Backend := { ServiceName := "web"
                                            ServicePort := IntOrString.ofInt 443 } }] } }

/-- An ingress of namespace `default` made of `sampleRule`, with nothing published yet. -/
def sampleIngress : Ingress :=
  { Namespace := "default", Name := "web", Rules := [sampleRule], Status := [] }

/-- The service `web` of namespace `default`, declaring port 443. -/
def sampleService : Service :=
  { Namespace := "default", Name := "web", ClusterIP := "10.0.0.5", Ports := [{ Port := 443 }] }

/-- An ingress whose second rule names a host and no HTTP section. -/
def hostOnlyIngress : Ingress :=
  { Namespace := "default", Name := "bare"
    Rules := [sampleRule, { Host := "b.example.com", HTTP := none }], Status := [] }

/-- An error of another class. -/
def serverError : Error := { reason := "InternalError", message := "etcd unavailable" }

/-- The table after `sampleIngress` and `sampleService` have been added. -/
def sampleTable : Table :=
  { ingresses := StrMap.empty.assign "a.example.com" "default/web/443"
    services := assignPorts sampleService StrMap.empty }

/-! ## Lemmas on the maps -/

theorem StrMap.assign_same (m : StrMap) (k v : String) : m.assign k v k = some v := by
  simp [StrMap.assign]

theorem StrMap.assign_other (m : StrMap) (k v x : String) (h : x ≠ k) : m.assign k v x = m x := by
  simp [StrMap.assign, h]

theorem StrMap.delete_same (m : StrMap) (k : String) : m.delete k k = none := by
  simp [StrMap.delete]

theorem StrMap.delete_other (m : StrMap) (k x : String) (h : x ≠ k) : m.delete k x = m x := by
  simp [StrMap.delete, h]

/-! ## updateIngress: the rule map -/

theorem hasPath_iff (r : IngressRule) :
    r.hasPath = true ↔ ∃ http p ps, r.HTTP = some http ∧ http.Paths = p :: ps := by
  unfold IngressRule.hasPath
  cases hh : r.HTTP with
  | none => simp
  | some http =>
    cases hp : http.Paths with
    | nil => simp [hp]
    | cons p ps => simp [hp]

theorem hasPath_firstPath (r : IngressRule) (h : r.hasPath = true) :
    ∃ p, r.firstPath = some p := by
  obtain ⟨http, p, ps, h1, h2⟩ := (hasPath_iff r).1 h
  exact ⟨p, by simp [IngressRule.firstPath, h1, h2]⟩

theorem updateRules_cons_some (ns : String) (r : IngressRule) (rs : List IngressRule)
    (m : StrMap) (p : HTTPIngressPath) (h : r.firstPath = some p) :
    updateRules ns (r :: rs) m
      = updateRules ns rs
          (m.assign r.Host (ingressKey ns p.Backend.ServiceName p.Backend.ServicePort)) := by
  unfold IngressRule.firstPath at h
  cases hh : r.HTTP with
  | none => simp [hh] at h
  | some http =>
    cases hp : http.Paths with
    | nil => simp [hh, hp] at h
    | cons q qs =>
      simp [hh, hp] at h
      subst h
      simp [updateRules, hh, hp]

theorem updateRules_cons_none (ns : String) (r : IngressRule) (rs : List IngressRule)
    (m : StrMap) (h : r.firstPath = none) : updateRules ns (r :: rs) m = none := by
  unfold IngressRule.firstPath at h
  cases hh : r.HTTP with
  | none => simp [updateRules, hh]
  | some http =>
    cases hp : http.Paths with
    | nil => simp [updateRules, hh, hp]
    | cons q qs => simp [hh, hp] at h

theorem firstPath_eq_none (r : IngressRule) (h : r.hasPath = false) : r.firstPath = none := by
  cases hf : r.firstPath with
  | none => rfl
  | some p =>
    unfold IngressRule.firstPath at hf
    unfold IngressRule.hasPath at h
    cases hh : r.HTTP with
    | none => simp [hh] at hf
    | some http =>
      cases hp : http.Paths with
      | nil => simp [hh, hp] at hf
      | cons q qs => simp [hh, hp] at h

theorem updateRules_isSome (ns : String) (rules : List IngressRule) (m : StrMap) :
    (updateRules ns rules m).isSome = true ↔ ∀ r ∈ rules, r.hasPath = true := by
  induction rules generalizing m with
  | nil => simp [updateRules]
  | cons r rs ih =>
    cases hb : r.hasPath with
    | false =>
      rw [updateRules_cons_none ns r rs m (firstPath_eq_none r hb)]
      simp [hb]
    | true =>
      obtain ⟨p, hp⟩ := hasPath_firstPath r hb
      rw [updateRules_cons_some ns r rs m p hp, ih]
      simp [hb]

theorem updateRules_frame (ns : String) (rules : List IngressRule) (m m2 : StrMap) (h : String)
    (hm : updateRules ns rules m = some m2) (hh : ∀ r ∈ rules, r.Host ≠ h) : m2 h = m h := by
  induction rules generalizing m with
  | nil => simp [updateRules] at hm; subst hm; rfl
  | cons r rs ih =>
    cases hf : r.firstPath with
    | none => rw [updateRules_cons_none ns r rs m hf] at hm; exact absurd hm (by simp)
    | some p =>
      rw [updateRules_cons_some ns r rs m p hf] at hm
      rw [ih _ hm (fun x hx => hh x (List.mem_cons_of_mem _ hx))]
      exact StrMap.assign_other _ _ _ _ (fun e => hh r (List.mem_cons_self _ _) e.symm)

theorem updateRules_last (ns : String) (pre : List IngressRule) (r : IngressRule)
    (post : List IngressRule) (m m2 : StrMap)
    (hm : updateRules ns (pre ++ r :: post) m = some m2)
    (hpost : ∀ x ∈ post, x.Host ≠ r.Host) :
    ∃ p, r.firstPath = some p ∧
      m2 r.Host = some (ingressKey ns p.Backend.ServiceName p.Backend.ServicePort) := by
  induction pre generalizing m with
  | nil =>
    cases hf : r.firstPath with
    | none =>
      rw [List.nil_append, updateRules_cons_none ns r post m hf] at hm
      exact absurd hm (by simp)
    | some p =>
      rw [List.nil_append, updateRules_cons_some ns r post m p hf] at hm
      refine ⟨p, rfl, ?_⟩
      rw [updateRules_frame ns post _ m2 r.Host hm hpost]
      exact StrMap.assign_same _ _ _
  | cons q qs ih =>
    cases hf : q.firstPath with
    | none =>
      rw [List.cons_append, updateRules_cons_none ns q _ m hf] at hm
      exact absurd hm (by simp)
    | some p =>
      rw [List.cons_append, updateRules_cons_some ns q _ m p hf] at hm
      exact ih _ hm

theorem firstOnly_firstPath (r : IngressRule) : r.firstOnly.firstPath = r.firstPath := by
  unfold IngressRule.firstOnly IngressRule.firstPath
  cases hh : r.HTTP with
  | none => simp
  | some http =>
    cases hp : http.Paths with
    | nil => simp [hp]
    | cons q qs => simp [hp]

theorem updateRules_firstOnly (ns : String) (rules : List IngressRule) (m : StrMap) :
    updateRules ns (rules.map IngressRule.firstOnly) m = updateRules ns rules m := by
  induction rules generalizing m with
  | nil => rfl
  | cons r rs ih =>
    rw [List.map_cons]
    cases hf : r.firstPath with
    | none =>
      rw [updateRules_cons_none ns r rs m hf,
        updateRules_cons_none ns r.firstOnly _ m (by rw [firstOnly_firstPath, hf])]
    | some p =>
      rw [updateRules_cons_some ns r rs m p hf,
        updateRules_cons_some ns r.firstOnly _ m p (by rw [firstOnly_firstPath, hf]), ih]
      rfl

theorem updateRules_append (ns : String) (pre rest : List IngressRule) (m : StrMap) :
    updateRules ns (pre ++ rest) m = (updateRules ns pre m).bind (updateRules ns rest) := by
  induction pre generalizing m with
  | nil => rfl
  | cons r rs ih =>
    rw [List.cons_append]
    cases hf : r.firstPath with
    | none =>
      rw [updateRules_cons_none ns r _ m hf, updateRules_cons_none ns r _ m hf]
      rfl
    | some p =>
      rw [updateRules_cons_some ns r _ m p hf, updateRules_cons_some ns r _ m p hf]
      exact ih _

theorem updateIngress_ingresses (externalIP : String) (m : StrMap) (i : Ingress)
    (reply : Option Error) :
    (updateIngress externalIP m i reply).map (fun r => r.ingresses)
      = updateRules i.Namespace i.Rules m := by
  unfold updateIngress
  cases updateRules i.Namespace i.Rules m with
  | none => rfl
  | some m2 => by_cases h : statusDiffers externalIP i.Status = true <;> simp [h]

theorem updateIngress_some (externalIP : String) (m : StrMap) (i : Ingress)
    (reply : Option Error) (res : UpdateIngressResult)
    (h : updateIngress externalIP m i reply = some res) :
    updateRules i.Namespace i.Rules m = some res.ingresses := by
  rw [← updateIngress_ingresses externalIP m i reply, h]
  rfl

theorem statusDiffers_iff (externalIP : String) (status : List LoadBalancerIngress) :
    statusDiffers externalIP status = true ↔ ¬ statusIs externalIP status := by
  unfold statusIs
  match status with
  | [] => simp [statusDiffers]
  | [x] => simp [statusDiffers]
  | x :: y :: rest => simp [statusDiffers]

/-! ## Lemmas on the keys -/

theorem digitVal_digitChar : ∀ k, k < 10 → digitVal (Nat.digitChar k) = k := by decide

theorem digitChar_ne_minus : ∀ k, k < 10 → Nat.digitChar k ≠ '-' := by decide

theorem toDigitsCore_append (fuel n : Nat) (ds : List Char) :
    Nat.toDigitsCore 10 fuel n ds = Nat.toDigitsCore 10 fuel n [] ++ ds := by
  induction fuel generalizing n ds with
  | zero => simp [Nat.toDigitsCore]
  | succ f ih =>
    simp only [Nat.toDigitsCore]
    split
    · simp
    · rw [ih (n / 10) (Nat.digitChar (n % 10) :: ds), ih (n / 10) [Nat.digitChar (n % 10)]]
      simp

theorem digitsVal_snoc (l : List Char) (c : Char) :
    digitsVal (l ++ [c]) = 10 * digitsVal l + digitVal c := by
  simp [digitsVal, List.foldl_append]

theorem digitsVal_toDigitsCore (fuel n : Nat) (h : n < fuel) :
    digitsVal (Nat.toDigitsCore 10 fuel n []) = n := by
  induction fuel generalizing n with
  | zero => omega
  | succ f ih =>
    simp only [Nat.toDigitsCore]
    split
    · rename_i h0
      have hn : n < 10 := by omega
      have hm : n % 10 = n := by omega
      rw [hm]
      simp [digitsVal, digitVal_digitChar n hn]
    · rename_i h0
      rw [toDigitsCore_append, digitsVal_snoc, ih (n / 10) (by omega),
        digitVal_digitChar (n % 10) (Nat.mod_lt _ (by decide))]
      omega

theorem toDigitsCore_digits (fuel n : Nat) :
    ∀ c ∈ Nat.toDigitsCore 10 fuel n [], ∃ k, k < 10 ∧ c = Nat.digitChar k := by
  induction fuel generalizing n with
  | zero => simp [Nat.toDigitsCore]
  | succ f ih =>
    intro c hc
    simp only [Nat.toDigitsCore] at hc
    split at hc
    · simp at hc
      exact ⟨n % 10, Nat.mod_lt _ (by decide), hc⟩
    · rw [toDigitsCore_append] at hc
      simp at hc
      rcases hc with hc | hc
      · exact ih _ c hc
      · exact ⟨n % 10, Nat.mod_lt _ (by decide), hc⟩

theorem repr_data (n : Nat) : (Nat.repr n).data = Nat.toDigitsCore 10 (n + 1) n [] := rfl

theorem repr_inj (a b : Nat) (h : Nat.repr a = Nat.repr b) : a = b := by
  have hd := congrArg String.data h
  rw [repr_data, repr_data] at hd
  have := congrArg digitsVal hd
  rwa [digitsVal_toDigitsCore _ _ (Nat.lt_succ_self a),
    digitsVal_toDigitsCore _ _ (Nat.lt_succ_self b)] at this

theorem repr_ne_minus (a b : Nat) : Nat.repr a ≠ "-" ++ Nat.repr b := by
  intro h
  have hd := congrArg String.data h
  rw [repr_data] at hd
  have hmem : '-' ∈ Nat.toDigitsCore 10 (a + 1) a [] := by
    rw [hd]
    simp
  obtain ⟨k, hk, hc⟩ := toDigitsCore_digits _ _ _ hmem
  exact digitChar_ne_minus k hk hc.symm

theorem Itoa_inj (a b : Int) (h : Itoa a = Itoa b) : a = b := by
  cases a with
  | ofNat x =>
    cases b with
    | ofNat y => simp only [Itoa] at h; rw [repr_inj x y h]
    | negSucc y => simp only [Itoa] at h; exact absurd h (repr_ne_minus _ _)
  | negSucc x =>
    cases b with
    | ofNat y => simp only [Itoa] at h; exact absurd h.symm (repr_ne_minus _ _)
    | negSucc y =>
      simp only [Itoa] at h
      have hd := congrArg String.data h
      simp at hd
      have := repr_inj _ _ (String.ext hd)
      have : x = y := by omega
      rw [this]

theorem split_at_sep (c : Char) (l1 l2 r1 r2 : List Char) (h1 : c ∉ l1) (h2 : c ∉ l2)
    (h : l1 ++ c :: r1 = l2 ++ c :: r2) : l1 = l2 ∧ r1 = r2 := by
  induction l1 generalizing l2 with
  | nil =>
    cases l2 with
    | nil => simpa using h
    | cons b bs =>
      simp only [List.nil_append, List.cons_append, List.cons.injEq] at h
      exact absurd h.1 (fun e => h2 (by simp [e]))
  | cons a as ih =>
    cases l2 with
    | nil =>
      simp only [List.nil_append, List.cons_append, List.cons.injEq] at h
      exact absurd h.1 (fun e => h1 (by simp [e]))
    | cons b bs =>
      simp only [List.cons_append, List.cons.injEq] at h
      obtain ⟨hl, hr⟩ := ih bs (fun hm => h1 (List.mem_cons_of_mem _ hm))
        (fun hm => h2 (List.mem_cons_of_mem _ hm)) h.2
      exact ⟨by rw [h.1, hl], hr⟩

theorem serviceKey_data (ns name : String) (port : Int) :
    (serviceKey ns name port).data = ns.data ++ '/' :: (name.data ++ '/' :: (Itoa port).data) := by
  simp [serviceKey, String.data_append]

theorem serviceKey_ne_empty (ns name : String) (port : Int) : serviceKey ns name port ≠ "" := by
  intro h
  have hd := congrArg String.data h
  rw [serviceKey_data] at hd
  simp at hd

theorem serviceKey_same_service (ns name : String) (p q : Int)
    (h : serviceKey ns name p = serviceKey ns name q) : p = q := by
  have hd := congrArg String.data h
  rw [serviceKey_data, serviceKey_data] at hd
  have h1 := List.append_cancel_left hd
  simp only [List.cons.injEq, true_and] at h1
  have h2 := List.append_cancel_left h1
  simp only [List.cons.injEq, true_and] at h2
  exact Itoa_inj p q (String.ext h2)

theorem serviceKey_inj (ns name ns2 name2 : String) (p q : Int)
    (h1 : noSlash ns) (h2 : noSlash name) (h3 : noSlash ns2) (h4 : noSlash name2)
    (h : serviceKey ns name p = serviceKey ns2 name2 q) : ns = ns2 ∧ name = name2 ∧ p = q := by
  have hd := congrArg String.data h
  rw [serviceKey_data, serviceKey_data] at hd
  obtain ⟨ha, hb⟩ := split_at_sep '/' _ _ _ _ h1 h3 hd
  obtain ⟨hc, he⟩ := split_at_sep '/' _ _ _ _ h2 h4 hb
  exact ⟨String.ext ha, String.ext hc, Itoa_inj p q (String.ext he)⟩

/-! ## Lemmas on the endpoint map -/

theorem deletePorts_none (s : Service) (m : StrMap) (k : String) (h : m k = none) :
    deletePorts s m k = none := by
  unfold deletePorts
  generalize s.Ports = ports
  induction ports generalizing m with
  | nil => simpa using h
  | cons p ps ih =>
    rw [List.foldl_cons]
    apply ih
    by_cases hk : k = serviceKey s.Namespace s.Name p.Port
    · rw [hk]; exact StrMap.delete_same _ _
    · rw [StrMap.delete_other _ _ _ hk]; exact h

theorem deletePorts_mem (s : Service) (m : StrMap) (p : ServicePort) (hp : p ∈ s.Ports) :
    deletePorts s m (serviceKey s.Namespace s.Name p.Port) = none := by
  unfold deletePorts
  generalize s.Ports = ports at hp
  induction ports generalizing m with
  | nil => simp at hp
  | cons q qs ih =>
    rw [List.foldl_cons]
    rcases List.mem_cons.1 hp with hq | hq
    · subst hq
      exact deletePorts_none { s with Ports := qs } _ _ (StrMap.delete_same _ _)
    · exact ih _ hq

theorem deletePorts_other (s : Service) (m : StrMap) (k : String)
    (hk : ∀ p ∈ s.Ports, k ≠ serviceKey s.Namespace s.Name p.Port) :
    deletePorts s m k = m k := by
  unfold deletePorts
  generalize s.Ports = ports at hk
  induction ports generalizing m with
  | nil => rfl
  | cons q qs ih =>
    rw [List.foldl_cons, ih _ (fun p hp => hk p (List.mem_cons_of_mem _ hp))]
    exact StrMap.delete_other _ _ _ (hk q (List.mem_cons_self _ _))

theorem assignPorts_keep (s : Service) (m : StrMap) (k v : String) (hm : m k = some v)
    (hv : ∀ p ∈ s.Ports, serviceKey s.Namespace s.Name p.Port = k →
      serviceAddr s.ClusterIP p.Port = v) :
    assignPorts s m k = some v := by
  unfold assignPorts
  generalize s.Ports = ports at hv
  induction ports generalizing m with
  | nil => simpa using hm
  | cons q qs ih =>
    rw [List.foldl_cons]
    apply ih _ _ (fun p hp => hv p (List.mem_cons_of_mem _ hp))
    by_cases hk : k = serviceKey s.Namespace s.Name q.Port
    · rw [hk, StrMap.assign_same, hv q (List.mem_cons_self _ _) hk.symm]
    · rw [StrMap.assign_other _ _ _ _ hk]; exact hm

theorem assignPorts_mem (s : Service) (m : StrMap) (p : ServicePort) (hp : p ∈ s.Ports) :
    assignPorts s m (serviceKey s.Namespace s.Name p.Port)
      = some (serviceAddr s.ClusterIP p.Port) := by
  have key : ∀ (ports : List ServicePort) (m : StrMap), p ∈ ports →
      ports.foldl (fun acc q => acc.assign (serviceKey s.Namespace s.Name q.Port)
        (serviceAddr s.ClusterIP q.Port)) m (serviceKey s.Namespace s.Name p.Port)
        = some (serviceAddr s.ClusterIP p.Port) := by
    intro ports
    induction ports with
    | nil => intro m h; simp at h
    | cons q qs ih =>
      intro m h
      rw [List.foldl_cons]
      by_cases hq : p ∈ qs
      · exact ih _ hq
      · have hpq : p = q := by
          rcases List.mem_cons.1 h with h1 | h1
          · exact h1
          · exact absurd h1 hq
        subst hpq
        exact assignPorts_keep { s with Ports := qs } _ _ _ (StrMap.assign_same _ _ _)
          (fun _ _ hx => by rw [serviceKey_same_service _ _ _ _ hx])
  exact key s.Ports m hp

theorem assignPorts_other (s : Service) (m : StrMap) (k : String)
    (hk : ∀ p ∈ s.Ports, k ≠ serviceKey s.Namespace s.Name p.Port) :
    assignPorts s m k = m k := by
  unfold assignPorts
  generalize s.Ports = ports at hk
  induction ports generalizing m with
  | nil => rfl
  | cons q qs ih =>
    rw [List.foldl_cons, ih _ (fun p hp => hk p (List.mem_cons_of_mem _ hp))]
    exact StrMap.assign_other _ _ _ _ (hk q (List.mem_cons_self _ _))

theorem assignPorts_empty_key (s : Service) (m : StrMap) : assignPorts s m "" = m "" :=
  assignPorts_other s m "" (fun _ _ => (serviceKey_ne_empty _ _ _).symm)

theorem listServices_empty_key (items : List Service) : listServices items "" = none := by
  have key : ∀ (l : List Service) (m : StrMap), m "" = none →
      l.foldl (fun acc s => assignPorts s acc) m "" = none := by
    intro l
    induction l with
    | nil => intro m h; simpa using h
    | cons s rest ih =>
      intro m h
      rw [List.foldl_cons]
      exact ih _ (by rw [assignPorts_empty_key]; exact h)
  exact key items StrMap.empty rfl

/-! ## Lemmas on the snapshot loop -/

theorem updateIngress_result (externalIP : String) (m : StrMap) (i : Ingress)
    (reply : Option Error) (m2 : StrMap) (hm : updateRules i.Namespace i.Rules m = some m2) :
    updateIngress externalIP m i reply
      = some (if statusDiffers externalIP i.Status = true then
          { ingresses := m2
            UpdateStatus := [{ i with Status := [{ IP := externalIP, Hostname := "" }] }]
            err := if IsConflict reply then none else reply }
        else { ingresses := m2, UpdateStatus := [], err := none }) := by
  unfold updateIngress
  rw [hm]
  by_cases h : statusDiffers externalIP i.Status = true <;> simp [h]

theorem listLoop_cons_continue (externalIP : String) (i : Ingress) (reply : Option Error)
    (rest : List (Ingress × Option Error)) (m : StrMap) (res : UpdateIngressResult)
    (h : updateIngress externalIP m i reply = some res) (herr : res.err = none) :
    listLoop externalIP ((i, reply) :: rest) m = listLoop externalIP rest res.ingresses := by
  simp [listLoop, h, herr]

theorem listLoop_cons_stop (externalIP : String) (i : Ingress) (reply : Option Error)
    (rest : List (Ingress × Option Error)) (m : StrMap) (res : UpdateIngressResult) (err : Error)
    (h : updateIngress externalIP m i reply = some res) (herr : res.err = some err) :
    listLoop externalIP ((i, reply) :: rest) m = some (res.ingresses, some err) := by
  simp [listLoop, h, herr]

theorem listLoop_append (externalIP : String) (before rest : List (Ingress × Option Error))
    (m0 m : StrMap) (h : listLoop externalIP before m0 = some (m, none)) :
    listLoop externalIP (before ++ rest) m0 = listLoop externalIP rest m := by
  induction before generalizing m0 with
  | nil =>
    simp only [listLoop, Option.some.injEq, Prod.mk.injEq, and_true] at h
    subst h
    rfl
  | cons x xs ih =>
    obtain ⟨i, reply⟩ := x
    rw [List.cons_append]
    cases hu : updateIngress externalIP m0 i reply with
    | none => simp [listLoop, hu] at h
    | some res =>
      cases herr : res.err with
      | some err =>
        rw [listLoop_cons_stop externalIP i reply xs m0 res err hu herr] at h
        simp at h
      | none =>
        rw [listLoop_cons_continue externalIP i reply xs m0 res hu herr] at h
        rw [listLoop_cons_continue externalIP i reply (xs ++ rest) m0 res hu herr]
        exact ih _ h

theorem listLoop_snapshot (externalIP : String) (items : List (Ingress × Option Error))
    (m : StrMap)
    (hwf : ∀ x ∈ items, ∀ r ∈ x.1.Rules, r.hasPath = true)
    (hok : ∀ x ∈ items, statusDiffers externalIP x.1.Status = true → x.2 = none) :
    ∃ m2, listLoop externalIP items m = some (m2, none) ∧
      (∀ h, h ∉ boundHosts items → m2 h = m h) ∧
      ((boundHosts items).Nodup → ∀ x ∈ items, ∀ r ∈ x.1.Rules, ∃ p, r.firstPath = some p ∧
        m2 r.Host = some (ingressKey x.1.Namespace p.Backend.ServiceName p.Backend.ServicePort)) := by
  induction items generalizing m with
  | nil => exact ⟨m, rfl, fun _ _ => rfl, fun _ x hx => absurd hx (List.not_mem_nil x)⟩
  | cons x xs ih =>
    obtain ⟨i, reply⟩ := x
    have hdef := (updateRules_isSome i.Namespace i.Rules m).2 (hwf (i, reply) (List.mem_cons_self _ _))
    obtain ⟨m1, hm1⟩ := Option.isSome_iff_exists.1 hdef
    have hu := updateIngress_result externalIP m i reply m1 hm1
    have hreply := hok (i, reply) (List.mem_cons_self _ _)
    obtain ⟨m2, hloop, hframe, hbind⟩ := ih m1 (fun y hy => hwf y (List.mem_cons_of_mem _ hy))
      (fun y hy => hok y (List.mem_cons_of_mem _ hy))
    refine ⟨m2, ?_, ?_, ?_⟩
    · rw [listLoop_cons_continue externalIP i reply xs m _ hu, ← hloop]
      · by_cases hs : statusDiffers externalIP i.Status = true <;> simp [hs]
      · by_cases hs : statusDiffers externalIP i.Status = true
        · have hr : reply = none := hreply hs
          simp [hs, hr, IsConflict]
        · simp [hs]
    · intro h hh
      simp only [boundHosts, List.mem_append, List.mem_map, not_or, not_exists, not_and] at hh
      rw [hframe h hh.2]
      exact updateRules_frame i.Namespace i.Rules m m1 h hm1 (fun r hr => hh.1 r hr)
    · intro hnd y hy r hr
      simp only [boundHosts] at hnd
      have hnd1 := (List.nodup_append.1 hnd).1
      have hnd2 := (List.nodup_append.1 hnd).2.1
      have hdisj := (List.nodup_append.1 hnd).2.2
      rcases List.mem_cons.1 hy with hy1 | hy1
      · subst hy1
        obtain ⟨pre, post, hsplit⟩ := List.append_of_mem hr
        have hsplit2 : i.Rules = pre ++ r :: post := hsplit
        have hpost : ∀ z ∈ post, z.Host ≠ r.Host := by
          intro z hz heq
          rw [hsplit2, List.map_append, List.map_cons] at hnd1
          have h3 := (List.nodup_append.1 hnd1).2.1
          have h4 := (List.nodup_cons.1 h3).1
          exact h4 (List.mem_map.2 ⟨z, hz, heq⟩)
        rw [hsplit2] at hm1
        obtain ⟨p, hp, hval⟩ := updateRules_last i.Namespace pre r post m m1 hm1 hpost
        refine ⟨p, hp, ?_⟩
        rw [hframe r.Host (fun hmem => hdisj (List.mem_map.2 ⟨r, hr, rfl⟩) hmem)]
        exact hval
      · exact hbind hnd2 y hy1 r hr

/-! ## Lemmas on the service loop -/

theorem watchServicesStep_return (s s2 : ServiceLoop) (inp : ServiceInput) (err : Error) :
    (watchServicesStep s inp = some s2 ∧ s2.pc = Pc.Return err) ↔
      ((s.pc = Pc.List ∧ inp = ServiceInput.List (Except.error err)) ∨
       (s.pc = Pc.Watch ∧ inp = ServiceInput.Watch (some err))) ∧
      s2 = { pc := Pc.Return err, services := s.services } := by
  obtain ⟨pc, m⟩ := s
  constructor
  · rintro ⟨hstep, hpc⟩
    cases pc with
    | List =>
      cases inp with
      | List reply =>
        cases reply with
        | error e =>
          simp only [watchServicesStep, Option.some.injEq] at hstep
          subst hstep
          simp only [Pc.Return.injEq] at hpc
          subst hpc
          simp
        | ok items =>
          simp only [watchServicesStep, Option.some.injEq] at hstep
          subst hstep
          simp at hpc
      | Watch reply => simp [watchServicesStep] at hstep
      | Recv ev => simp [watchServicesStep] at hstep
    | Watch =>
      cases inp with
      | List reply => simp [watchServicesStep] at hstep
      | Watch reply =>
        cases reply with
        | some e =>
          simp only [watchServicesStep, Option.some.injEq] at hstep
          subst hstep
          simp only [Pc.Return.injEq] at hpc
          subst hpc
          simp
        | none =>
          simp only [watchServicesStep, Option.some.injEq] at hstep
          subst hstep
          simp at hpc
      | Recv ev => simp [watchServicesStep] at hstep
    | Drain =>
      cases inp with
      | List reply => simp [watchServicesStep] at hstep
      | Watch reply => simp [watchServicesStep] at hstep
      | Recv ev =>
        cases ev with
        | none =>
          simp only [watchServicesStep, Option.some.injEq] at hstep
          subst hstep
          simp at hpc
        | some e =>
          cases e <;>
            (simp only [watchServicesStep, Option.some.injEq] at hstep
             subst hstep
             simp at hpc)
    | Return e => cases inp <;> simp [watchServicesStep] at hstep
    | Panic => cases inp <;> simp [watchServicesStep] at hstep
  · rintro ⟨hcase, hs2⟩
    subst hs2
    rcases hcase with ⟨hpc, hinp⟩ | ⟨hpc, hinp⟩
    · simp only at hpc
      subst hpc
      subst hinp
      exact ⟨rfl, rfl⟩
    · simp only at hpc
      subst hpc
      subst hinp
      exact ⟨rfl, rfl⟩

theorem watchServicesStep_of_return (err : Error) (m : StrMap) (inp : ServiceInput) :
    watchServicesStep { pc := Pc.Return err, services := m } inp = none := by
  cases inp <;> rfl

theorem watchServices_return_last (inputs : List ServiceInput) (s s2 : ServiceLoop) (err : Error)
    (hs : ∀ e, s.pc ≠ Pc.Return e) (hrun : watchServices s inputs = some s2)
    (hret : s2.pc = Pc.Return err) :
    ∃ init last, inputs = init ++ [last] ∧
      (last = ServiceInput.List (Except.error err) ∨ last = ServiceInput.Watch (some err)) := by
  induction inputs generalizing s with
  | nil =>
    simp only [watchServices, Option.some.injEq] at hrun
    subst hrun
    exact absurd hret (hs err)
  | cons inp rest ih =>
    cases hstep : watchServicesStep s inp with
    | none => simp [watchServices, hstep] at hrun
    | some s1 =>
      simp only [watchServices, hstep] at hrun
      cases rest with
      | nil =>
        simp only [watchServices, Option.some.injEq] at hrun
        subst hrun
        have h := (watchServicesStep_return s s1 inp err).1 ⟨hstep, hret⟩
        refine ⟨[], inp, rfl, ?_⟩
        rcases h.1 with ⟨_, h1⟩ | ⟨_, h1⟩
        · exact Or.inl h1
        · exact Or.inr h1
      | cons inp2 rest2 =>
        have hs1 : ∀ e, s1.pc ≠ Pc.Return e := by
          intro e he
          obtain ⟨pc1, m1⟩ := s1
          simp only at he
          subst he
          simp [watchServices, watchServicesStep_of_return] at hrun
        obtain ⟨init, last, hsplit, hlast⟩ := ih s1 hs1 hrun
        exact ⟨inp :: init, last, by rw [hsplit]; rfl, hlast⟩

/-! ## The claims -/

/-- C1: in every routing table the two loops can reach from the empty maps, and
for every hostname `h`, the resolution of `handle` yields the address `a` when
the rule map binds `h` to a key `k` and the endpoint map binds `k` to `a`; it
yields the empty string when `h` has no rule, and when the key of its rule has
no endpoint; the endpoint map has no entry under the empty key; and the
address `handle` dials for the sniffed name `h` is that resolution. -/
theorem resolve_composes_the_maps (externalIP : String) (t : Table)
    (hreach : Reachable externalIP t) (h : String) :
    (∀ k a, t.ingresses h = some k → t.services k = some a → resolve t h = a) ∧
    (t.ingresses h = none → resolve t h = "") ∧
    (∀ k, t.ingresses h = some k → t.services k = none → resolve t h = "") ∧
    t.services "" = none ∧
    (∀ env : Session, env.handshake = Handshake.fakeError h →
      (handle t env).dialed = [resolve t h]) := by
  have hempty : t.services "" = none := by
    induction hreach with
    | init => rfl
    | ruleSnapshot t items m err _ _ ih => exact ih
    | ruleUpsert t i reply r _ _ ih => exact ih
    | ruleDelete t i _ ih => exact ih
    | endpointSnapshot t items _ _ => exact listServices_empty_key items
    | endpointUpsert t s _ ih =>
      show assignPorts s t.services "" = none
      rw [assignPorts_empty_key]
      exact ih
    | endpointDelete t s _ ih => exact deletePorts_none s t.services "" ih
  refine ⟨?_, ?_, ?_, hempty, ?_⟩
  · intro k a hk ha
    simp [resolve, StrMap.index, hk, ha]
  · intro hk
    simp [resolve, StrMap.index, hk, hempty]
  · intro k hk ha
    simp [resolve, StrMap.index, hk, ha]
  · intro env hhs
    unfold handle resolve
    simp only [hhs]
    cases env.Dial (t.services.index (t.ingresses.index h)) with
    | some err => rfl
    | none =>
      simp only []
      cases env.c2Write _ with
      | some err => rfl
      | none =>
        simp only []
        cases bridge env.copyBack env.errch <;> rfl

/-- C1, witness: the table reached from the empty maps by an add of
`sampleIngress` followed by an add of `sampleService`, at `a.example.com`. -/
theorem resolve_composes_the_maps_witness :
    (∀ k a, sampleTable.ingresses "a.example.com" = some k → sampleTable.services k = some a →
      resolve sampleTable "a.example.com" = a) ∧
    (sampleTable.ingresses "a.example.com" = none → resolve sampleTable "a.example.com" = "") ∧
    (∀ k, sampleTable.ingresses "a.example.com" = some k → sampleTable.services k = none →
      resolve sampleTable "a.example.com" = "") ∧
    sampleTable.services "" = none ∧
    (∀ env : Session, env.handshake = Handshake.fakeError "a.example.com" →
      (handle sampleTable env).dialed = [resolve sampleTable "a.example.com"]) :=
  resolve_composes_the_maps "203.0.113.9" sampleTable
    (Reachable.endpointUpsert _ sampleService
      (Reachable.ruleUpsert Table.init sampleIngress none
        { ingresses := StrMap.empty.assign "a.example.com" "default/web/443"
          UpdateStatus := [{ sampleIngress with Status := [{ IP := "203.0.113.9", Hostname := "" }] }]
          err := none }
        Reachable.init rfl))
    "a.example.com"

/-- C2: the key written for a rule and the key written for an endpoint agree.
Take an ingress whose rule for hostname `h`, repeated by no later rule of that
ingress, has a first path with backend service `svc` and integer port `p`, and
a service `svc` of the same namespace with cluster address `ip` that declares
port `p`.  If `updateIngress` processes the ingress, then in either order of
the two steps resolving `h` yields the string "ip:p"; and every declared port
`q` of the service is stored as its own entry "ns/svc/q" -> "ip:q". -/
theorem rule_key_meets_endpoint_key (externalIP : String) (t : Table) (i : Ingress)
    (reply : Option Error) (s : Service) (pre post : List IngressRule) (r : IngressRule)
    (http : HTTPIngressRuleValue) (path : HTTPIngressPath) (others : List HTTPIngressPath)
    (p : Int)
    (hrules : i.Rules = pre ++ r :: post)
    (hlater : ∀ x ∈ post, x.Host ≠ r.Host)
    (hhttp : r.HTTP = some http)
    (hpaths : http.Paths = path :: others)
    (hbackend : path.Backend = { ServiceName := s.Name, ServicePort := IntOrString.ofInt p })
    (hns : s.Namespace = i.Namespace)
    (hport : { Port := p } ∈ s.Ports)
    (hproc : (updateIngress externalIP t.ingresses i reply).isSome = true) :
    (∃ t1, Table.ingressUpsert externalIP t i reply = some t1 ∧
      resolve (t1.serviceUpsert s) r.Host = s.ClusterIP ++ ":" ++ Itoa p) ∧
    (∃ t2, Table.ingressUpsert externalIP (t.serviceUpsert s) i reply = some t2 ∧
      resolve t2 r.Host = s.ClusterIP ++ ":" ++ Itoa p) ∧
    (∀ q ∈ s.Ports, ∀ m, assignPorts s m (s.Namespace ++ "/" ++ s.Name ++ "/" ++ Itoa q.Port)
      = some (s.ClusterIP ++ ":" ++ Itoa q.Port)) := by
  obtain ⟨res, hres⟩ := Option.isSome_iff_exists.1 hproc
  have hm := updateIngress_some externalIP t.ingresses i reply res hres
  rw [hrules] at hm
  obtain ⟨p0, hp0, hval⟩ := updateRules_last i.Namespace pre r post t.ingresses res.ingresses hm hlater
  have hp0eq : p0 = path := by
    simp [IngressRule.firstPath, hhttp, hpaths] at hp0
    exact hp0.symm
  subst hp0eq
  rw [hbackend] at hval
  have hkey : ingressKey i.Namespace s.Name (IntOrString.ofInt p)
      = serviceKey s.Namespace s.Name p := by
    rw [hns]
    rfl
  rw [hkey] at hval
  have hentry : ∀ m, assignPorts s m (serviceKey s.Namespace s.Name p)
      = some (serviceAddr s.ClusterIP p) := fun m => assignPorts_mem s m { Port := p } hport
  refine ⟨⟨{ t with ingresses := res.ingresses }, ?_, ?_⟩,
    ⟨{ t.serviceUpsert s with ingresses := res.ingresses }, ?_, ?_⟩, ?_⟩
  · simp [Table.ingressUpsert, hres]
  · simp only [resolve, Table.serviceUpsert, StrMap.index, hval, Option.getD_some, hentry]
    rfl
  · have hres2 : updateIngress externalIP (t.serviceUpsert s).ingresses i reply = some res := hres
    simp [Table.ingressUpsert, hres2]
  · simp only [resolve, Table.serviceUpsert, StrMap.index, hval, Option.getD_some, hentry]
    rfl
  · intro q hq m
    exact assignPorts_mem s m q hq

/-- C2, witness: `sampleIngress` and `sampleService`, from the empty table. -/
theorem rule_key_meets_endpoint_key_witness :
    (∃ t1, Table.ingressUpsert "203.0.113.9" Table.init sampleIngress none = some t1 ∧
      resolve (t1.serviceUpsert sampleService) sampleRule.Host
        = sampleService.ClusterIP ++ ":" ++ Itoa 443) ∧
    (∃ t2, Table.ingressUpsert "203.0.113.9" (Table.init.serviceUpsert sampleService)
        sampleIngress none = some t2 ∧
      resolve t2 sampleRule.Host = sampleService.ClusterIP ++ ":" ++ Itoa 443) ∧
    (∀ q ∈ sampleService.Ports, ∀ m,
      assignPorts sampleService m
          (sampleService.Namespace ++ "/" ++ sampleService.Name ++ "/" ++ Itoa q.Port)
        = some (sampleService.ClusterIP ++ ":" ++ Itoa q.Port)) :=
  rule_key_meets_endpoint_key "203.0.113.9" Table.init sampleIngress none sampleService [] []
    sampleRule { Paths := [{ Path := "/"
                             Backend := { ServiceName := "web"
                                          ServicePort := IntOrString.ofInt 443 } }] }
    { Path := "/", Backend := { ServiceName := "web", ServicePort := IntOrString.ofInt 443 } } []
    443 rfl (by simp) rfl rfl rfl rfl (by decide) rfl

/-- C3: while the replay buffer is present, after any sequence of `Read` and
`Write` calls on the wrapper the buffer is what it held before followed by the
bytes `b[:n]` of every underlying read, in order, whether or not the read also
returned an error; each `Read` returns the underlying `(n, err)`, each `Write`
returns `(len(b), nil)`, reaches the underlying connection not at all and
leaves the wrapper as it was; and what `handle` writes to the outbound
connection after a sniff is that buffer, in a single write. -/
theorem conn_sniff_buffer (buf0 : List Byte) (w0 : List (List Byte)) (calls : List ConnCall) :
    ((conn.run { buf := some buf0, written := w0 } calls).1
        = { buf := some (buf0 ++ readBytes calls), written := w0 }) ∧
    ((conn.run { buf := some buf0, written := w0 } calls).2
        = calls.map (fun c =>
            match c with
            | ConnCall.Read data err => (data.length, err)
            | ConnCall.Write b _ => (b.length, none))) ∧
    (∀ (b : List Byte) (under : Nat × Option Error),
        conn.Write { buf := some buf0, written := w0 } b under
          = ({ buf := some buf0, written := w0 }, b.length, none)) ∧
    (∀ (t : Table) (env : Session) (serverName : String),
        env.calls = calls → env.handshake = Handshake.fakeError serverName →
        env.Dial (resolve t serverName) = none →
        (handle t env).c2Written = [readBytes calls]) := by
  refine ⟨?_, ?_, ?_, ?_⟩
  · induction calls generalizing buf0 with
    | nil => simp [conn.run, readBytes]
    | cons c rest ih =>
      cases c with
      | Read data err =>
        simp only [conn.run, conn.Read, readBytes]
        rw [ih (buf0 ++ data), List.append_assoc]
      | Write b under =>
        simp only [conn.run, conn.Write, readBytes]
        exact ih buf0
  · induction calls generalizing buf0 with
    | nil => simp [conn.run]
    | cons c rest ih =>
      cases c with
      | Read data err =>
        simp only [conn.run, conn.Read, List.map_cons]
        rw [ih (buf0 ++ data)]
      | Write b under =>
        simp only [conn.run, conn.Write, List.map_cons]
        rw [ih buf0]
  · intro b under
    rfl
  · intro t env serverName hcalls hhs hdial
    have hbuf : (conn.run { buf := some [], written := [] } env.calls).1.buf
        = some (readBytes calls) := by
      have hrun : ∀ (l : List ConnCall) (b0 : List Byte),
          (conn.run { buf := some b0, written := [] } l).1.buf = some (b0 ++ readBytes l) := by
        intro l
        induction l with
        | nil => intro b0; simp [conn.run, readBytes]
        | cons c rest ih =>
          intro b0
          cases c with
          | Read data err =>
            simp only [conn.run, conn.Read, readBytes]
            rw [ih (b0 ++ data), List.append_assoc]
          | Write b under =>
            simp only [conn.run, conn.Write, readBytes]
            exact ih b0
      rw [hcalls, hrun calls []]
      rfl
    unfold resolve at hdial
    unfold handle
    simp only [hhs, hdial, hbuf, Option.getD_some]
    cases env.c2Write (readBytes calls) with
    | some err => rfl
    | none =>
      simp only []
      cases bridge env.copyBack env.errch <;> rfl

/-- C3, witness: a sniff made of two reads (the second with an error) around a
write; the outbound connection receives the four bytes read. -/
theorem conn_sniff_buffer_witness :
    (handle Table.init
        { calls := [ConnCall.Read [22, 3, 1] none, ConnCall.Write [21, 3] (0, none),
                    ConnCall.Read [0] (some { reason := "EOF", message := "EOF" })]
          handshake := Handshake.fakeError "a.example.com"
          Dial := fun _ => none
          c2Write := fun _ => none
          copyBack := none
          errch := some none }).c2Written
      = [readBytes [ConnCall.Read [22, 3, 1] none, ConnCall.Write [21, 3] (0, none),
                    ConnCall.Read [0] (some { reason := "EOF", message := "EOF" })]] :=
  (conn_sniff_buffer [] []
    [ConnCall.Read [22, 3, 1] none, ConnCall.Write [21, 3] (0, none),
     ConnCall.Read [0] (some { reason := "EOF", message := "EOF" })]).2.2.2
    Table.init _ "a.example.com" rfl rfl rfl

/-- C4, as amended: for every listed collection in which every rule carries an
HTTP section with at least one path, no hostname is bound twice and every status
update that is issued succeeds, the snapshot step of `watchIngresses` ends at
the `Watch` call with a rule map that is the same whatever the map held
before: every hostname of a rule of a listed item maps to the key
"namespace/service/port" of that rule's first path, and every other hostname
is absent. -/
theorem snapshot_installs_listed_rules (externalIP : String)
    (items : List (Ingress × Option Error))
    (hwf : ∀ x ∈ items, ∀ r ∈ x.1.Rules, r.hasPath = true)
    (hnodup : (boundHosts items).Nodup)
    (hok : ∀ x ∈ items, statusDiffers externalIP x.1.Status = true → x.2 = none) :
    ∃ m, (∀ prev, watchIngressesStep externalIP { pc := Pc.List, ingresses := prev }
            (IngressInput.List (Except.ok items)) = some { pc := Pc.Watch, ingresses := m }) ∧
      (∀ x ∈ items, ∀ r ∈ x.1.Rules, ∃ http p ps, r.HTTP = some http ∧ http.Paths = p :: ps ∧
        m r.Host = some (x.1.Namespace ++ "/" ++ p.Backend.ServiceName ++ "/"
          ++ p.Backend.ServicePort.str)) ∧
      (∀ h, h ∉ boundHosts items → m h = none) := by
  obtain ⟨m, hloop, hframe, hbind⟩ := listLoop_snapshot externalIP items StrMap.empty hwf hok
  refine ⟨m, ?_, ?_, ?_⟩
  · intro prev
    simp [watchIngressesStep, hloop]
  · intro x hx r hr
    obtain ⟨p, hp, hval⟩ := hbind hnodup x hx r hr
    unfold IngressRule.firstPath at hp
    cases hh : r.HTTP with
    | none => simp [hh] at hp
    | some http =>
      cases hq : http.Paths with
      | nil => simp [hh, hq] at hp
      | cons q qs =>
        simp [hh, hq] at hp
        subst hp
        exact ⟨http, q, qs, rfl, hq, hval⟩
  · intro h hh
    rw [hframe h hh]
    rfl

/-- C4, witness: the snapshot of the one-item list made of `sampleIngress`. -/
theorem snapshot_installs_listed_rules_witness :
    ∃ m, (∀ prev, watchIngressesStep "203.0.113.9" { pc := Pc.List, ingresses := prev }
            (IngressInput.List (Except.ok [(sampleIngress, none)]))
            = some { pc := Pc.Watch, ingresses := m }) ∧
      (∀ x ∈ [(sampleIngress, (none : Option Error))], ∀ r ∈ x.1.Rules,
        ∃ http p ps, r.HTTP = some http ∧ http.Paths = p :: ps ∧
        m r.Host = some (x.1.Namespace ++ "/" ++ p.Backend.ServiceName ++ "/"
          ++ p.Backend.ServicePort.str)) ∧
      (∀ h, h ∉ boundHosts [(sampleIngress, none)] → m h = none) :=
  snapshot_installs_listed_rules "203.0.113.9" [(sampleIngress, none)]
    (by decide) (by decide) (by decide)

/-- C4, counterexample: the listed collection is the single ingress
`hostOnlyIngress`, whose second rule has no HTTP section.  No hostname is bound
twice and no status update fails, yet the snapshot step leaves no rule map:
it panics on that rule. -/
theorem snapshot_installs_listed_rules_counterexample :
    (boundHosts [(hostOnlyIngress, none)]).Nodup ∧
    (∀ x ∈ [(hostOnlyIngress, (none : Option Error))], x.2 = none) ∧
    (watchIngressesStep "203.0.113.9" { pc := Pc.List, ingresses := StrMap.empty }
        (IngressInput.List (Except.ok [(hostOnlyIngress, none)]))).map (fun s => s.pc)
      = some Pc.Panic := by
  decide

/-- C5: a `Deleted` event for a service (ns, name) declaring ports P removes only
those exact (namespace, name, port) entries.  Afterwards the endpoint map has
no entry for (ns, name, p) with p in P; the entry under every key string that
is not the key of a declared port is what it was before; every other port of
the same service keeps its entry; and, namespaces and names being Kubernetes
names (which hold no `/`), the entry of every other (namespace, name, port)
triple, for any port of any other service as well, is what it was before. -/
theorem deleted_service_removes_its_keys (m : StrMap) (s : Service) :
    (watchServicesStep { pc := Pc.Drain, services := m }
        (ServiceInput.Recv (some (ServiceEvent.Deleted s)))
      = some { pc := Pc.Drain, services := deletePorts s m }) ∧
    (∀ p ∈ s.Ports, deletePorts s m (serviceKey s.Namespace s.Name p.Port) = none) ∧
    (∀ k, (∀ p ∈ s.Ports, k ≠ serviceKey s.Namespace s.Name p.Port) →
      deletePorts s m k = m k) ∧
    (∀ port, (∀ p ∈ s.Ports, p.Port ≠ port) →
      deletePorts s m (serviceKey s.Namespace s.Name port)
        = m (serviceKey s.Namespace s.Name port)) ∧
    (∀ ns name port, noSlash s.Namespace → noSlash s.Name → noSlash ns → noSlash name →
      (ns, name) ≠ (s.Namespace, s.Name) →
      deletePorts s m (serviceKey ns name port) = m (serviceKey ns name port)) ∧
    (∀ ns name port, noSlash s.Namespace → noSlash s.Name → noSlash ns → noSlash name →
      ¬ (ns = s.Namespace ∧ name = s.Name ∧ ∃ p ∈ s.Ports, p.Port = port) →
      deletePorts s m (serviceKey ns name port) = m (serviceKey ns name port)) := by
  refine ⟨rfl, fun p hp => deletePorts_mem s m p hp, fun k hk => deletePorts_other s m k hk,
    ?_, ?_, ?_⟩
  · intro port hport
    apply deletePorts_other
    intro p hp hkey
    exact hport p hp (serviceKey_same_service _ _ _ _ hkey).symm
  · intro ns name port h1 h2 h3 h4 hne
    apply deletePorts_other
    intro p _ hkey
    obtain ⟨ha, hb, _⟩ := serviceKey_inj _ _ _ _ _ _ h3 h4 h1 h2 hkey
    exact hne (by rw [ha, hb])
  · intro ns name port h1 h2 h3 h4 hne
    apply deletePorts_other
    intro p hp hkey
    obtain ⟨ha, hb, hc⟩ := serviceKey_inj _ _ _ _ _ _ h3 h4 h1 h2 hkey
    exact hne ⟨ha, hb, p, hp, hc.symm⟩

/-- C5, witness: the map holds the entries of port 443 of `web` and of port 443
of `api`, both of namespace `default`; deleting `sampleService` (`web`,
declaring 443) leaves the entry of `api` as it was. -/
theorem deleted_service_removes_its_keys_witness :
    deletePorts sampleService
        ((assignPorts sampleService StrMap.empty).assign (serviceKey "default" "api" 443)
          (serviceAddr "10.0.0.6" 443))
        (serviceKey "default" "api" 443)
      = ((assignPorts sampleService StrMap.empty).assign (serviceKey "default" "api" 443)
          (serviceAddr "10.0.0.6" 443)) (serviceKey "default" "api" 443) :=
  (deleted_service_removes_its_keys
      ((assignPorts sampleService StrMap.empty).assign (serviceKey "default" "api" 443)
        (serviceAddr "10.0.0.6" 443)) sampleService).2.2.2.2.2
    "default" "api" 443 (by decide) (by decide) (by decide) (by decide) (by decide)

/-- C6, as amended: for every ingress whose rules each carry an HTTP section with
at least one path, `updateIngress` returns, and it calls `UpdateStatus` if and
only if the published address list is not exactly one entry whose IP is the
external address; it then calls it once, with the status set to the one entry
`externalIP`; when the list is already that entry it makes no call and returns
no error. -/
theorem updateIngress_status_update (externalIP : String) (m : StrMap) (i : Ingress)
    (reply : Option Error) (hwf : ∀ r ∈ i.Rules, r.hasPath = true) :
    ∃ res, updateIngress externalIP m i reply = some res ∧
      (res.UpdateStatus ≠ [] ↔ ¬ statusIs externalIP i.Status) ∧
      (res.UpdateStatus ≠ [] →
        res.UpdateStatus = [{ i with Status := [{ IP := externalIP, Hostname := "" }] }]) ∧
      (statusIs externalIP i.Status → res.UpdateStatus = [] ∧ res.err = none) := by
  have hdef := (updateRules_isSome i.Namespace i.Rules m).2 hwf
  obtain ⟨m2, hm2⟩ := Option.isSome_iff_exists.1 hdef
  by_cases hs : statusDiffers externalIP i.Status = true
  · have hn := (statusDiffers_iff externalIP i.Status).1 hs
    have hu : updateIngress externalIP m i reply
        = some { ingresses := m2
                 UpdateStatus := [{ i with Status := [{ IP := externalIP, Hostname := "" }] }]
                 err := if IsConflict reply then none else reply } := by
      simp only [updateIngress, hm2, hs, if_true]
    refine ⟨_, hu, ?_, ?_, ?_⟩
    · simp [hn]
    · intro _; rfl
    · intro h; exact absurd h hn
  · have hn : statusIs externalIP i.Status := by
      by_contra hc
      exact hs ((statusDiffers_iff externalIP i.Status).2 hc)
    have hu : updateIngress externalIP m i reply
        = some { ingresses := m2, UpdateStatus := [], err := none } := by
      simp only [updateIngress, hm2, hs]
      rfl
    refine ⟨_, hu, ?_, ?_, ?_⟩
    · simp [hn]
    · intro h; exact absurd rfl h
    · intro _; exact ⟨rfl, rfl⟩

/-- C6, witness: an ingress with one rule and one path, whose published list is empty. -/
theorem updateIngress_status_update_witness :
    ∃ res, updateIngress "203.0.113.9" StrMap.empty
        { Namespace := "default", Name := "web"
          Rules := [{ Host := "a.example.com"
                      HTTP := some { Paths := [{ Path := "/"
                                                 Backend := { ServiceName := "web"
                                                              ServicePort := IntOrString.ofInt 443 } }] } }]
          Status := [] } none = some res ∧
      (res.UpdateStatus ≠ [] ↔ ¬ statusIs "203.0.113.9" []) ∧
      (res.UpdateStatus ≠ [] →
        res.UpdateStatus = [{ Namespace := "default", Name := "web"
                              Rules := [{ Host := "a.example.com"
                                          HTTP := some { Paths := [{ Path := "/"
                                                                     Backend := { ServiceName := "web"
                                                                                  ServicePort := IntOrString.ofInt 443 } }] } }]
                              Status := [{ IP := "203.0.113.9", Hostname := "" }] }]) ∧
      (statusIs "203.0.113.9" [] → res.UpdateStatus = [] ∧ res.err = none) :=
  updateIngress_status_update "203.0.113.9" StrMap.empty _ none (by decide)

/-- C6, counterexample: an ingress with a host-only rule (no HTTP section) and an
empty published list.  The list is not the external address, yet
`updateIngress` makes no `UpdateStatus` call: it panics in the rule loop. -/
theorem updateIngress_status_update_counterexample :
    ¬ statusIs "203.0.113.9" ([] : List LoadBalancerIngress) ∧
    (updateIngress "203.0.113.9" StrMap.empty
        { Namespace := "default", Name := "web"
          Rules := [{ Host := "a.example.com", HTTP := none }]
          Status := [] } none).isNone = true := by
  constructor
  · simp [statusIs]
  · rfl

/-- C7: take a resource for which `updateIngress` issues a status update.  Its
rule-map entries are written before the call.  If the call returns a
conflict-class error, `updateIngress` returns no error: the snapshot loop goes
on with the next item and the drain loop stays in the drain step.  If it
returns any other error, `updateIngress` returns that error and
`watchIngresses` returns it, from the snapshot step whatever items follow in
the list and from the drain step alike, and consumes no further input. -/
theorem status_update_error_handling (externalIP : String) (m : StrMap) (i : Ingress)
    (reply : Option Error)
    (hissued : ∃ res, updateIngress externalIP m i reply = some res ∧ res.UpdateStatus ≠ []) :
    ∃ m2, updateRules i.Namespace i.Rules m = some m2 ∧
      (IsConflict reply = true →
        updateIngress externalIP m i reply
          = some { ingresses := m2
                   UpdateStatus := [{ i with Status := [{ IP := externalIP, Hostname := "" }] }]
                   err := none } ∧
        (∀ rest, listLoop externalIP ((i, reply) :: rest) m = listLoop externalIP rest m2) ∧
        watchIngressesStep externalIP { pc := Pc.Drain, ingresses := m }
            (IngressInput.Recv (some (IngressEvent.Added i reply)))
          = some { pc := Pc.Drain, ingresses := m2 } ∧
        watchIngressesStep externalIP { pc := Pc.Drain, ingresses := m }
            (IngressInput.Recv (some (IngressEvent.Modified i reply)))
          = some { pc := Pc.Drain, ingresses := m2 }) ∧
      (∀ err, reply = some err → IsConflict reply = false →
        updateIngress externalIP m i reply
          = some { ingresses := m2
                   UpdateStatus := [{ i with Status := [{ IP := externalIP, Hostname := "" }] }]
                   err := some err } ∧
        (∀ before rest prev, listLoop externalIP before StrMap.empty = some (m, none) →
          watchIngressesStep externalIP { pc := Pc.List, ingresses := prev }
              (IngressInput.List (Except.ok (before ++ (i, reply) :: rest)))
            = some { pc := Pc.Return err, ingresses := m2 }) ∧
        watchIngressesStep externalIP { pc := Pc.Drain, ingresses := m }
            (IngressInput.Recv (some (IngressEvent.Added i reply)))
          = some { pc := Pc.Return err, ingresses := m2 } ∧
        watchIngressesStep externalIP { pc := Pc.Drain, ingresses := m }
            (IngressInput.Recv (some (IngressEvent.Modified i reply)))
          = some { pc := Pc.Return err, ingresses := m2 } ∧
        (∀ inp more, watchIngresses externalIP { pc := Pc.Return err, ingresses := m2 }
            (inp :: more) = none)) := by
  obtain ⟨res, hres, hcalls⟩ := hissued
  have hm := updateIngress_some externalIP m i reply res hres
  have hu := updateIngress_result externalIP m i reply res.ingresses hm
  have hs : statusDiffers externalIP i.Status = true := by
    by_contra hc
    rw [hu] at hres
    simp only [hc, Option.some.injEq] at hres
    apply hcalls
    rw [← hres]
    simp
  simp only [hs, if_true] at hu
  refine ⟨res.ingresses, hm, ?_, ?_⟩
  · intro hconf
    have hu2 : updateIngress externalIP m i reply
        = some { ingresses := res.ingresses
                 UpdateStatus := [{ i with Status := [{ IP := externalIP, Hostname := "" }] }]
                 err := none } := by
      rw [hu]; simp [hconf]
    refine ⟨hu2, ?_, ?_, ?_⟩
    · intro rest
      exact listLoop_cons_continue externalIP i reply rest m
        { ingresses := res.ingresses
          UpdateStatus := [{ i with Status := [{ IP := externalIP, Hostname := "" }] }]
          err := none } hu2 rfl
    · simp [watchIngressesStep, ingressUpsert, hu2]
    · simp [watchIngressesStep, ingressUpsert, hu2]
  · intro err hreply hconf
    have hu2 : updateIngress externalIP m i reply
        = some { ingresses := res.ingresses
                 UpdateStatus := [{ i with Status := [{ IP := externalIP, Hostname := "" }] }]
                 err := some err } := by
      rw [hu, hconf]; simp [hreply]
    refine ⟨hu2, ?_, ?_, ?_, ?_⟩
    · intro before rest prev hbefore
      have h1 := listLoop_append externalIP before ((i, reply) :: rest) StrMap.empty m hbefore
      have h2 := listLoop_cons_stop externalIP i reply rest m
        { ingresses := res.ingresses
          UpdateStatus := [{ i with Status := [{ IP := externalIP, Hostname := "" }] }]
          err := some err } err hu2 rfl
      simp [watchIngressesStep, h1, h2]
    · simp [watchIngressesStep, ingressUpsert, hu2]
    · simp [watchIngressesStep, ingressUpsert, hu2]
    · intro inp more
      cases inp <;> rfl

/-- C7, witness: `sampleIngress`, whose status update fails with `serverError`. -/
theorem status_update_error_handling_witness :
    ∃ m2, updateRules sampleIngress.Namespace sampleIngress.Rules StrMap.empty = some m2 ∧
      (IsConflict (some serverError) = true →
        updateIngress "203.0.113.9" StrMap.empty sampleIngress (some serverError)
          = some { ingresses := m2
                   UpdateStatus := [{ sampleIngress with Status := [{ IP := "203.0.113.9", Hostname := "" }] }]
                   err := none } ∧
        (∀ rest, listLoop "203.0.113.9" ((sampleIngress, (some serverError)) :: rest) StrMap.empty = listLoop "203.0.113.9" rest m2) ∧
        watchIngressesStep "203.0.113.9" { pc := Pc.Drain, ingresses := StrMap.empty }
            (IngressInput.Recv (some (IngressEvent.Added sampleIngress (some serverError))))
          = some { pc := Pc.Drain, ingresses := m2 } ∧
        watchIngressesStep "203.0.113.9" { pc := Pc.Drain, ingresses := StrMap.empty }
            (IngressInput.Recv (some (IngressEvent.Modified sampleIngress (some serverError))))
          = some { pc := Pc.Drain, ingresses := m2 }) ∧
      (∀ err, (some serverError) = some err → IsConflict (some serverError) = false →
        updateIngress "203.0.113.9" StrMap.empty sampleIngress (some serverError)
          = some { ingresses := m2
                   UpdateStatus := [{ sampleIngress with Status := [{ IP := "203.0.113.9", Hostname := "" }] }]
                   err := some err } ∧
        (∀ before rest prev, listLoop "203.0.113.9" before StrMap.empty = some (StrMap.empty, none) →
          watchIngressesStep "203.0.113.9" { pc := Pc.List, ingresses := prev }
              (IngressInput.List (Except.ok (before ++ (sampleIngress, (some serverError)) :: rest)))
            = some { pc := Pc.Return err, ingresses := m2 }) ∧
        watchIngressesStep "203.0.113.9" { pc := Pc.Drain, ingresses := StrMap.empty }
            (IngressInput.Recv (some (IngressEvent.Added sampleIngress (some serverError))))
          = some { pc := Pc.Return err, ingresses := m2 } ∧
        watchIngressesStep "203.0.113.9" { pc := Pc.Drain, ingresses := StrMap.empty }
            (IngressInput.Recv (some (IngressEvent.Modified sampleIngress (some serverError))))
          = some { pc := Pc.Return err, ingresses := m2 } ∧
        (∀ inp more, watchIngresses "203.0.113.9" { pc := Pc.Return err, ingresses := m2 }
            (inp :: more) = none)) :=
  status_update_error_handling "203.0.113.9" StrMap.empty sampleIngress (some serverError)
    ⟨{ ingresses := StrMap.empty.assign "a.example.com" (ingressKey "default" "web" (IntOrString.ofInt 443))
       UpdateStatus := [{ sampleIngress with Status := [{ IP := "203.0.113.9", Hostname := "" }] }]
       err := some serverError }, rfl, by simp⟩

/-- C8: in both loops, a closed watch channel or an `Error` event received in the
drain step leaves the loop at the top of its outer `for` (its next cluster call
is `List`) with its map untouched, and does not make it return; from there a
successful `List` installs a map built from the listed items alone, starting
from the empty map whatever the map held before; and a step of `watchServices`
leads to a return exactly when `List` or `Watch` answered with an error, which
is the error returned, so that a run of `watchServices` that has returned `err`
ended on a `List` or `Watch` call answered with `err`. -/
theorem watch_error_event_relists (externalIP : String) (mi ms : StrMap) (object : String) :
    (watchIngressesStep externalIP { pc := Pc.Drain, ingresses := mi } (IngressInput.Recv none)
      = some { pc := Pc.List, ingresses := mi }) ∧
    (watchIngressesStep externalIP { pc := Pc.Drain, ingresses := mi }
        (IngressInput.Recv (some (IngressEvent.Error object)))
      = some { pc := Pc.List, ingresses := mi }) ∧
    (watchServicesStep { pc := Pc.Drain, services := ms } (ServiceInput.Recv none)
      = some { pc := Pc.List, services := ms }) ∧
    (watchServicesStep { pc := Pc.Drain, services := ms }
        (ServiceInput.Recv (some (ServiceEvent.Error object)))
      = some { pc := Pc.List, services := ms }) ∧
    (∀ items, watchServicesStep { pc := Pc.List, services := ms } (ServiceInput.List (Except.ok items))
      = some { pc := Pc.Watch, services := listServices items }) ∧
    (∀ items m, listLoop externalIP items StrMap.empty = some (m, none) →
      watchIngressesStep externalIP { pc := Pc.List, ingresses := mi }
          (IngressInput.List (Except.ok items))
        = some { pc := Pc.Watch, ingresses := m }) ∧
    (∀ items m err, listLoop externalIP items StrMap.empty = some (m, some err) →
      watchIngressesStep externalIP { pc := Pc.List, ingresses := mi }
          (IngressInput.List (Except.ok items))
        = some { pc := Pc.Return err, ingresses := m }) ∧
    (∀ (s s2 : ServiceLoop) (inp : ServiceInput) (err : Error),
      (watchServicesStep s inp = some s2 ∧ s2.pc = Pc.Return err) ↔
        ((s.pc = Pc.List ∧ inp = ServiceInput.List (Except.error err)) ∨
         (s.pc = Pc.Watch ∧ inp = ServiceInput.Watch (some err))) ∧
        s2 = { pc := Pc.Return err, services := s.services }) ∧
    (∀ (inputs : List ServiceInput) (s2 : ServiceLoop) (err : Error),
      watchServices { pc := Pc.List, services := ms } inputs = some s2 →
      s2.pc = Pc.Return err →
      ∃ init last, inputs = init ++ [last] ∧
        (last = ServiceInput.List (Except.error err) ∨
         last = ServiceInput.Watch (some err))) := by
  refine ⟨rfl, rfl, rfl, rfl, fun _ => rfl, ?_, ?_, ?_, ?_⟩
  · intro items m h
    simp [watchIngressesStep, h]
  · intro items m err h
    simp [watchIngressesStep, h]
  · intro s s2 inp err
    exact watchServicesStep_return s s2 inp err
  · intro inputs s2 err hrun hret
    exact watchServices_return_last inputs _ s2 err (fun e he => by simp at he) hrun hret

/-- C9, as amended: in `handle`, once the replay has been written, if the
synchronous backend-to-client copy ends with an error, `handle` returns that
error and closes both connections whatever the concurrent copy has done so
far; if it ends cleanly, `handle` receives from `errch`: it has returned, and
closed the connections, exactly when the concurrent client-to-backend copy has
ended, and what it returns is the result of that copy. -/
theorem handle_bridge_returns (t : Table) (env : Session) (serverName : String)
    (hhs : env.handshake = Handshake.fakeError serverName)
    (hdial : env.Dial (resolve t serverName) = none)
    (hwrite : ∀ b, env.c2Write b = none) :
    (∀ err, env.copyBack = some err →
      (handle t env).returned = some (some err) ∧
      (handle t env).ccClosed = true ∧ (handle t env).c2Closed = true) ∧
    (env.copyBack = none →
      (handle t env).returned = env.errch ∧
      (handle t env).ccClosed = env.errch.isSome ∧
      (handle t env).c2Closed = env.errch.isSome) := by
  unfold resolve at hdial
  constructor
  · intro err hcopy
    simp [handle, hhs, hdial, hwrite, hcopy, bridge]
  · intro hcopy
    cases hch : env.errch with
    | none => simp [handle, hhs, hdial, hwrite, hcopy, hch, bridge]
    | some r => simp [handle, hhs, hdial, hwrite, hcopy, hch, bridge]

/-- C9, witness: the backend closes cleanly and the client-to-backend copy has
then ended with an error, which is what `handle` returns. -/
theorem handle_bridge_returns_witness :
    (∀ err, (none : Option Error) = some err →
      (handle Table.init
        { calls := [], handshake := Handshake.fakeError "a.example.com", Dial := fun _ => none
          c2Write := fun _ => none, copyBack := none
          errch := some (some { reason := "", message := "broken pipe" }) }).returned
        = some (some err) ∧
      (handle Table.init
        { calls := [], handshake := Handshake.fakeError "a.example.com", Dial := fun _ => none
          c2Write := fun _ => none, copyBack := none
          errch := some (some { reason := "", message := "broken pipe" }) }).ccClosed = true ∧
      (handle Table.init
        { calls := [], handshake := Handshake.fakeError "a.example.com", Dial := fun _ => none
          c2Write := fun _ => none, copyBack := none
          errch := some (some { reason := "", message := "broken pipe" }) }).c2Closed = true) ∧
    ((none : Option Error) = none →
      (handle Table.init
        { calls := [], handshake := Handshake.fakeError "a.example.com", Dial := fun _ => none
          c2Write := fun _ => none, copyBack := none
          errch := some (some { reason := "", message := "broken pipe" }) }).returned
        = some (some { reason := "", message := "broken pipe" }) ∧
      (handle Table.init
        { calls := [], handshake := Handshake.fakeError "a.example.com", Dial := fun _ => none
          c2Write := fun _ => none, copyBack := none
          errch := some (some { reason := "", message := "broken pipe" }) }).ccClosed = true ∧
      (handle Table.init
        { calls := [], handshake := Handshake.fakeError "a.example.com", Dial := fun _ => none
          c2Write := fun _ => none, copyBack := none
          errch := some (some { reason := "", message := "broken pipe" }) }).c2Closed = true) :=
  handle_bridge_returns Table.init
    { calls := [], handshake := Handshake.fakeError "a.example.com", Dial := fun _ => none
      c2Write := fun _ => none, copyBack := none
      errch := some (some { reason := "", message := "broken pipe" }) }
    "a.example.com" rfl rfl (fun _ => rfl)

/-- C9, counterexample: (1) the backend-to-client copy has ended cleanly while the
client-to-backend copy is still running: `handle` has not returned and has
closed neither connection; (2) the client-to-backend copy ended first, with
"broken pipe", and the backend-to-client copy then ends with "reset": `handle`
returns "reset", the error of the direction that ended last. -/
theorem handle_bridge_counterexample :
    (handle Table.init
        { calls := [], handshake := Handshake.fakeError "a.example.com", Dial := fun _ => none
          c2Write := fun _ => none, copyBack := none, errch := none }).returned = none ∧
    (handle Table.init
        { calls := [], handshake := Handshake.fakeError "a.example.com", Dial := fun _ => none
          c2Write := fun _ => none, copyBack := none, errch := none }).ccClosed = false ∧
    (handle Table.init
        { calls := [], handshake := Handshake.fakeError "a.example.com", Dial := fun _ => none
          c2Write := fun _ => none, copyBack := none, errch := none }).c2Closed = false ∧
    (handle Table.init
        { calls := [], handshake := Handshake.fakeError "a.example.com", Dial := fun _ => none
          c2Write := fun _ => none
          copyBack := some { reason := "", message := "reset" }
          errch := some (some { reason := "", message := "broken pipe" }) }).returned
      = some (some { reason := "", message := "reset" }) := by
  refine ⟨rfl, rfl, rfl, rfl⟩

/-- C10: the rule-map update of `updateIngress` is defined exactly when every rule
of the ingress carries an HTTP section with at least one path.  When it is
defined, the loop, on reaching a rule, binds that rule's hostname to the key
made of the ingress namespace and the service name and port of that rule's
first path; in the map it leaves, a hostname has the binding of the last rule
that names it, and a hostname of no rule keeps its entry.  Removing all paths
after the first from every rule changes nothing. -/
theorem updateIngress_binds_first_path (externalIP : String) (m : StrMap) (i : Ingress)
    (reply : Option Error) :
    ((updateIngress externalIP m i reply).isSome = true ↔
      ∀ r ∈ i.Rules, ∃ http p ps, r.HTTP = some http ∧ http.Paths = p :: ps) ∧
    (∀ res, updateIngress externalIP m i reply = some res →
      (∀ pre r post, i.Rules = pre ++ r :: post →
        ∃ http p ps m1, r.HTTP = some http ∧ http.Paths = p :: ps ∧
          updateRules i.Namespace pre m = some m1 ∧
          updateRules i.Namespace (pre ++ [r]) m
            = some (m1.assign r.Host
                (i.Namespace ++ "/" ++ p.Backend.ServiceName ++ "/" ++ p.Backend.ServicePort.str))) ∧
      (∀ pre r post, i.Rules = pre ++ r :: post → (∀ x ∈ post, x.Host ≠ r.Host) →
        ∃ http p ps, r.HTTP = some http ∧ http.Paths = p :: ps ∧
          res.ingresses r.Host
            = some (i.Namespace ++ "/" ++ p.Backend.ServiceName ++ "/"
                ++ p.Backend.ServicePort.str)) ∧
      (∀ h, (∀ r ∈ i.Rules, r.Host ≠ h) → res.ingresses h = m h)) ∧
    (updateIngress externalIP m { i with Rules := i.Rules.map IngressRule.firstOnly } reply).map
        (fun r => r.ingresses)
      = (updateIngress externalIP m i reply).map (fun r => r.ingresses) := by
  refine ⟨?_, ?_, ?_⟩
  · have h1 : (updateIngress externalIP m i reply).isSome
        = (updateRules i.Namespace i.Rules m).isSome := by
      rw [← updateIngress_ingresses externalIP m i reply]
      cases updateIngress externalIP m i reply <;> rfl
    rw [h1, updateRules_isSome]
    constructor
    · intro h r hr
      exact (hasPath_iff r).1 (h r hr)
    · intro h r hr
      exact (hasPath_iff r).2 (h r hr)
  · intro res hres
    have hm := updateIngress_some externalIP m i reply res hres
    refine ⟨?_, ?_, ?_⟩
    · intro pre r post hsplit
      rw [hsplit, updateRules_append] at hm
      cases hpre : updateRules i.Namespace pre m with
      | none => rw [hpre] at hm; exact absurd hm (by simp)
      | some m1 =>
        rw [hpre, Option.some_bind] at hm
        cases hf : r.firstPath with
        | none => rw [updateRules_cons_none i.Namespace r post m1 hf] at hm; exact absurd hm (by simp)
        | some p =>
          have hstep : updateRules i.Namespace (pre ++ [r]) m
              = some (m1.assign r.Host
                  (ingressKey i.Namespace p.Backend.ServiceName p.Backend.ServicePort)) := by
            rw [updateRules_append, hpre, Option.some_bind,
              updateRules_cons_some i.Namespace r [] m1 p hf]
            rfl
          unfold IngressRule.firstPath at hf
          cases hh : r.HTTP with
          | none => simp [hh] at hf
          | some http =>
            cases hq : http.Paths with
            | nil => simp [hh, hq] at hf
            | cons q qs =>
              simp [hh, hq] at hf
              subst hf
              exact ⟨http, q, qs, m1, rfl, hq, rfl, hstep⟩
    · intro pre r post hsplit hpost
      rw [hsplit] at hm
      obtain ⟨p, hp, hval⟩ := updateRules_last i.Namespace pre r post m res.ingresses hm hpost
      unfold IngressRule.firstPath at hp
      cases hh : r.HTTP with
      | none => simp [hh] at hp
      | some http =>
        cases hq : http.Paths with
        | nil => simp [hh, hq] at hp
        | cons q qs =>
          simp [hh, hq] at hp
          subst hp
          exact ⟨http, q, qs, rfl, hq, hval⟩
    · intro h hh
      exact updateRules_frame i.Namespace i.Rules m res.ingresses h hm hh
  · rw [updateIngress_ingresses, updateIngress_ingresses]
    exact updateRules_firstOnly i.Namespace i.Rules m

end Dumbingress
